import Mathlib

/-!
Verification development for the image-metadata codec and pipeline of the
`iead` repository.

The JavaScript sources are embedded shallowly:

* byte buffers (`Uint8Array` contents) are `List Nat` whose entries are < 256;
  an out-of-range read `bytes[i]` yields `undefined`, which the arithmetic in
  the source coerces to 0, so the read function `byteAt` is total with
  default 0;
* JavaScript strings are lists of UTF-16 code units / Unicode code points
  (`List Nat`); `String.fromCharCode` is reduction modulo 2^16;
* JavaScript 32-bit operations (`<<`, `|`, `>>>`, `&`, `^`) are modelled on
  `Nat`/`Int` with explicit reduction modulo 2^32 where it matters;
* the `while` loops of the chunk walkers take explicit fuel: `none` means the
  loop has not finished within the given fuel (the JavaScript loop would still
  be running), `some r` means the loop terminated with result `r`;
* code that can throw (`Uint8Array.set` out of range) returns `Option`, with
  `none` marking the thrown exception.
-/

namespace Iead

/-- Read `bytes[i]` from a `Uint8Array` modelled as a `List Nat`.
Out-of-range (or negative) indices give `undefined`, which every consumer in
the source coerces to 0, so the model returns 0 there. -/
def byteAt (bytes : List Nat) (i : Int) : Nat :=
  if 0 ≤ i ∧ i < (bytes.length : Int) then bytes.getD i.toNat 0 else 0

/-- Interpret a 32-bit pattern as a signed JavaScript 32-bit integer
(the result of a `|` expression). -/
def toInt32 (n : Nat) : Int :=
  let m := n % 4294967296
  if m < 2147483648 then (m : Int) else (m : Int) - 4294967296

/-- The chunk-length read of `image-exif.js`
(`(bytes[o] << 24) | (bytes[o+1] << 16) | (bytes[o+2] << 8) | bytes[o+3]`,
lines 33-34 and 194-195): a signed 32-bit value. -/
def readLength (bytes : List Nat) (off : Int) : Int :=
  toInt32 (byteAt bytes off <<< 24 ||| byteAt bytes (off + 1) <<< 16 |||
    byteAt bytes (off + 2) <<< 8 ||| byteAt bytes (off + 3))

/-- The 4-character chunk type string built with `String.fromCharCode`
(lines 38-39 and 190-191); `String.fromCharCode` reduces its argument
modulo 2^16. -/
def typeAt (bytes : List Nat) (off : Int) : List Nat :=
  [byteAt bytes off % 65536, byteAt bytes (off + 1) % 65536,
   byteAt bytes (off + 2) % 65536, byteAt bytes (off + 3) % 65536]

/-- `Uint8Array.prototype.slice(b, e)`: negative indices count from the end,
both endpoints are clamped to `[0, length]`. -/
def jsSlice (l : List Nat) (b e : Int) : List Nat :=
  let len : Int := l.length
  let lo : Int := if b < 0 then max (len + b) 0 else min b len
  let hi : Int := if e < 0 then max (len + e) 0 else min e len
  (l.take hi.toNat).drop lo.toNat

/-- Big-endian 4-byte serialization of a 32-bit value
(`DataView.setUint32(_, n, false)` wraps modulo 2^32). -/
def u32be (n : Nat) : List Nat :=
  let m := n % 4294967296
  [m / 16777216 % 256, m / 65536 % 256, m / 256 % 256, m % 256]

/-- The chunk-type constants compared against in the source. -/
def tEXtType : List Nat := [116, 69, 88, 116]

/-- Chunk type `iTXt`. -/
def iTXtType : List Nat := [105, 84, 88, 116]

/-- Chunk type `IEND`. -/
def iendType : List Nat := [73, 69, 78, 68]

/-- Chunk type `IDAT`. -/
def idatType : List Nat := [73, 68, 65, 84]

/-! ### CRC32 (`calculateCRC`, image-exif.js lines 176-185) -/

/-- The 8-round inner bit loop of `calculateCRC`:
`crc = (crc >>> 1) ^ ((crc & 1) ? 0xEDB88320 : 0)`, executed `j` times.
The running value is kept as the Nat reading of the 32-bit pattern. -/
def crcLoop8 : Nat → Nat → Nat
  | 0, crc => crc
  | j + 1, crc => crcLoop8 j (Nat.xor (crc >>> 1) (if crc &&& 1 = 1 then 3988292384 else 0))

/-- `calculateCRC(data)`: seed `0xFFFFFFFF`, per byte `crc = crc ^ data[i]`
followed by 8 bit rounds, final `(crc ^ 0xFFFFFFFF) >>> 0`. -/
def calculateCRC (data : List Nat) : Nat :=
  Nat.xor (data.foldl (fun crc b => crcLoop8 8 (Nat.xor crc b)) 4294967295) 4294967295

/-! ### Text encodings

`TextEncoder` (UTF-8 encode), `TextDecoder('latin1')` (windows-1252 decode)
and `TextDecoder('utf-8')` (WHATWG UTF-8 decode with U+FFFD replacement and
BOM stripping), as used by `createTextChunk` and `extractPngMetadata`. -/

/-- UTF-8 encoding of one code point; an unpaired surrogate in a JavaScript
string is encoded by `TextEncoder` as U+FFFD (`EF BF BD`). -/
def utf8EncodeChar (c : Nat) : List Nat :=
  if c ≤ 127 then [c]
  else if c ≤ 2047 then [192 + c / 64, 128 + c % 64]
  else if 55296 ≤ c ∧ c ≤ 57343 then [239, 191, 189]
  else if c ≤ 65535 then [224 + c / 4096, 128 + c / 64 % 64, 128 + c % 64]
  else if c ≤ 1114111 then
    [240 + c / 262144, 128 + c / 4096 % 64, 128 + c / 64 % 64, 128 + c % 64]
  else [239, 191, 189]

/-- `TextEncoder.encode` over a string modelled as its code points. -/
def utf8Encode (s : List Nat) : List Nat := s.flatMap utf8EncodeChar

/-- One byte of windows-1252 decoding (the WHATWG decoder behind the label
`latin1`): bytes 0x80-0x9F map through the windows-1252 table, all other
bytes map to themselves. -/
def win1252Byte (b : Nat) : Nat :=
  if b = 128 then 8364
  else if b = 130 then 8218
  else if b = 131 then 402
  else if b = 132 then 8222
  else if b = 133 then 8230
  else if b = 134 then 8224
  else if b = 135 then 8225
  else if b = 136 then 710
  else if b = 137 then 8240
  else if b = 138 then 352
  else if b = 139 then 8249
  else if b = 140 then 338
  else if b = 142 then 381
  else if b = 145 then 8216
  else if b = 146 then 8217
  else if b = 147 then 8220
  else if b = 148 then 8221
  else if b = 149 then 8226
  else if b = 150 then 8211
  else if b = 151 then 8212
  else if b = 152 then 732
  else if b = 153 then 8482
  else if b = 154 then 353
  else if b = 155 then 8250
  else if b = 156 then 339
  else if b = 158 then 382
  else b

/-- `TextDecoder('latin1').decode`. -/
def win1252Decode (bs : List Nat) : List Nat := bs.map win1252Byte

/-- State of the WHATWG UTF-8 decoder: bytes still needed, partial code
point, and the admissible range for the next continuation byte. -/
structure Utf8State where
  needed : Nat
  cp : Nat
  lo : Nat
  hi : Nat
  deriving DecidableEq

/-- Initial UTF-8 decoder state. -/
def utf8Init : Utf8State := ⟨0, 0, 128, 191⟩

/-- Dispatch on a byte in the initial state. -/
def utf8Start (b : Nat) : Utf8State × List Nat :=
  if b ≤ 127 then (utf8Init, [b])
  else if 194 ≤ b ∧ b ≤ 223 then (⟨1, b &&& 31, 128, 191⟩, [])
  else if 224 ≤ b ∧ b ≤ 239 then
    (⟨2, b &&& 15, if b = 224 then 160 else 128, if b = 237 then 159 else 191⟩, [])
  else if 240 ≤ b ∧ b ≤ 244 then
    (⟨3, b &&& 7, if b = 240 then 144 else 128, if b = 244 then 143 else 191⟩, [])
  else (utf8Init, [65533])

/-- One step of the WHATWG UTF-8 decoder; on an invalid continuation byte it
emits U+FFFD and reprocesses the byte in the initial state. -/
def utf8Step (st : Utf8State) (b : Nat) : Utf8State × List Nat :=
  if st.needed = 0 then utf8Start b
  else if st.lo ≤ b ∧ b ≤ st.hi then
    let cp' := st.cp <<< 6 ||| (b &&& 63)
    if st.needed = 1 then (utf8Init, [cp'])
    else (⟨st.needed - 1, cp', 128, 191⟩, [])
  else
    let s := utf8Start b
    (s.1, 65533 :: s.2)

/-- Run the UTF-8 decoder; a dangling incomplete sequence at end of input
emits one U+FFFD. -/
def utf8DecodeLoop : Utf8State → List Nat → List Nat
  | st, [] => if st.needed = 0 then [] else [65533]
  | st, b :: rest =>
    let s := utf8Step st b
    s.2 ++ utf8DecodeLoop s.1 rest

/-- `TextDecoder('utf-8').decode`: strips a leading byte-order mark, then
runs the WHATWG decoder. -/
def utf8Decode (bs : List Nat) : List Nat :=
  utf8DecodeLoop utf8Init (if bs.take 3 = [239, 187, 191] then bs.drop 3 else bs)

/-! ### The metadata object

`metadata[keyword] = text` on a plain JavaScript object, with the object
modelled as an association list in property-insertion order (the order
`Object.keys`/`Object.entries` enumerates non-index string keys). -/

/-- The key association list built by `metadata[keyword] = text`. -/
abbrev Metadata := List (List Nat × List Nat)

/-- The code points of `"__proto__"`: assigning a string through this key on
a plain object triggers the inherited prototype setter and creates no own
property, so the assignment is a no-op for `Object.keys`/`Object.entries`. -/
def protoKey : List Nat := [95, 95, 112, 114, 111, 116, 111, 95, 95]

/-- `m[k] = v` on a plain object: replace the value of an existing key in
place, otherwise append the new key at the end. -/
def objInsert (m : Metadata) (k v : List Nat) : Metadata :=
  if k = protoKey then m
  else if m.any (fun p => p.1 = k) then
    m.map (fun p => if p.1 = k then (p.1, v) else p)
  else m ++ [(k, v)]

/-! ### `extractPngMetadata` (image-exif.js lines 15-93) -/

/-- The keyword/text split of a `tEXt` chunk body (lines 45-60): the keyword
is everything before the first zero byte, read with `String.fromCharCode`;
the rest (after the zero) is decoded as `latin1`. -/
def parseTEXt (chunkData : List Nat) : List Nat × List Nat :=
  let kw := chunkData.takeWhile (fun b => b ≠ 0)
  (kw.map (fun b => b % 65536), win1252Decode (chunkData.drop (kw.length + 1)))

/-- The keyword/text split of an `iTXt` chunk body (lines 45-54 and 61-70):
after the zero-terminated keyword come a compression flag byte, a
compression method byte, a zero-terminated language tag and a
zero-terminated translated keyword; the remainder is decoded as UTF-8. -/
def parseITXt (chunkData : List Nat) : List Nat × List Nat :=
  let kw := chunkData.takeWhile (fun b => b ≠ 0)
  let i1 := kw.length + 3
  let langLen := ((chunkData.drop i1).takeWhile (fun b => b ≠ 0)).length
  let i2 := i1 + langLen + 1
  let transLen := ((chunkData.drop i2).takeWhile (fun b => b ≠ 0)).length
  let i3 := i2 + transLen + 1
  (kw.map (fun b => b % 65536), utf8Decode (chunkData.drop i3))

/-- The chunk walk of `extractPngMetadata` (lines 31-80), with fuel: one unit
of fuel per loop iteration; `none` means the loop is still running after
`fuel` iterations. Each iteration reads the signed 32-bit length and the
type, harvests `tEXt`/`iTXt` chunk bodies, advances by `12 + length`, and
stops after processing an `IEND` chunk or when `offset ≥ bytes.length`. -/
def pngWalk : Nat → List Nat → Int → Metadata → Option Metadata
  | 0, _, _, _ => none
  | fuel + 1, bytes, off, md =>
    if off < (bytes.length : Int) then
      let len := readLength bytes off
      let typ := typeAt bytes (off + 4)
      let md' :=
        if typ = tEXtType then
          let p := parseTEXt (jsSlice bytes (off + 8) (off + 8 + len))
          objInsert md p.1 p.2
        else if typ = iTXtType then
          let p := parseITXt (jsSlice bytes (off + 8) (off + 8 + len))
          objInsert md p.1 p.2
        else md
      if typ = iendType then some md'
      else pngWalk fuel bytes (off + 12 + len) md'
    else some md

/-- `extractPngMetadata` (lines 15-93) on the raw bytes of the blob.  The
result pairs the format recorded in `originalImageFormat` with the returned
metadata (`none` models the JavaScript `null`).  The outer `Option` is the
fuel of the chunk walk.  The signature check (line 21) compares only the
first four bytes; a failed check records `"jpeg"` and returns `null` before
the walk starts.  Nothing inside the walk can throw, so the `try/catch` of
the source contributes no further case. -/
def extractPngMetadata (bytes : List Nat) (fuel : Nat) :
    Option (String × Option Metadata) :=
  if byteAt bytes 0 = 137 ∧ byteAt bytes 1 = 80 ∧ byteAt bytes 2 = 78 ∧
      byteAt bytes 3 = 71 then
    match pngWalk fuel bytes 8 [] with
    | none => none
    | some md => some ("png", if md.isEmpty then none else some md)
  else some ("jpeg", none)

/-! ### `injectPngMetadata` (image-exif.js lines 132-227) -/

/-- `createTextChunk(keyword, text)` (lines 142-173): UTF-8 encode keyword
and text, join them with a zero byte, and wrap the result in a chunk
`u32be length ++ "tEXt" ++ data ++ u32be crc` where the CRC is
`calculateCRC` over `chunk.slice(4, 8 + data.length)`, i.e. type ‖ data. -/
def createTextChunk (keyword text : List Nat) : List Nat :=
  let keywordBytes := utf8Encode keyword
  let textBytes := utf8Encode text
  let chunkData := keywordBytes ++ [0] ++ textBytes
  u32be chunkData.length ++ tEXtType ++ chunkData ++
    u32be (calculateCRC (tEXtType ++ chunkData))

/-- The IDAT scan of `injectPngMetadata` (lines 188-197), with fuel: read
the type at `offset + 4`, stop at the first `IDAT`, otherwise advance by
`4 + 4 + length + 4` with the signed 32-bit length. -/
def idatScan : Nat → List Nat → Int → Option Int
  | 0, _, _ => none
  | fuel + 1, bytes, off =>
    if off < (bytes.length : Int) then
      if typeAt bytes (off + 4) = idatType then some off
      else idatScan fuel bytes (off + 12 + readLength bytes off)
    else some off

/-- `target.set(src, off)` on a `Uint8Array`: throws (modelled as `none`)
unless `0 ≤ off` and `off + src.length ≤ target.length`; otherwise
overwrites the range `[off, off + src.length)`. -/
def tryArraySet (target src : List Nat) (off : Int) : Option (List Nat) :=
  if 0 ≤ off ∧ off + (src.length : Int) ≤ (target.length : Int) then
    some (target.take off.toNat ++ src ++ target.drop (off.toNat + src.length))
  else none

/-- The insertion loop of lines 212-216: write each chunk at the running
offset, advancing by its length. -/
def setChunks : List Nat → Int → List (List Nat) → Option (List Nat × Int)
  | t, off, [] => some (t, off)
  | t, off, c :: cs =>
    match tryArraySet t c off with
    | none => none
    | some t' => setChunks t' (off + c.length) cs

/-- The body of the `try` block of `injectPngMetadata` (lines 137-222) for a
non-empty entry list.  Outer `none`: the IDAT scan is still looping (out of
fuel).  Inner `none`: one of the `Uint8Array.set` calls threw.  The entry
list stands for `Object.entries(metadata)` in enumeration order. -/
def injectBody (bytes : List Nat) (entries : Metadata) (fuel : Nat) :
    Option (Option (List Nat)) :=
  match idatScan fuel bytes 8 with
  | none => none
  | some idatOffset =>
    let textChunks := entries.map fun e => createTextChunk e.1 e.2
    let total := (textChunks.map List.length).sum
    let newBytes0 := List.replicate (bytes.length + total) 0
    some (do
      let s1 ← tryArraySet newBytes0 (jsSlice bytes 0 idatOffset) 0
      let s2 ← setChunks s1 idatOffset textChunks
      let s3 ← tryArraySet s2.1 (jsSlice bytes idatOffset bytes.length) s2.2
      pure s3)

/-- `injectPngMetadata(pngBlob, metadata)` (lines 132-227): return the input
unchanged when the metadata object is absent or has no keys (lines 133-135);
otherwise run the try block, and on a thrown exception return the original
blob (lines 223-226).  `none` models a `metadata` argument that is
`null`/`undefined`; the outer `Option` of the result is walk fuel. -/
def injectPngMetadata (bytes : List Nat) (metadata : Option Metadata)
    (fuel : Nat) : Option (List Nat) :=
  match metadata with
  | none => some bytes
  | some entries =>
    if entries.isEmpty then some bytes
    else
      match injectBody bytes entries fuel with
      | none => none
      | some none => some bytes
      | some (some out) => some out

/-! ### `injectExifToDataUrl` (image-exif.js lines 235-280)

The `piexif` library is an external collaborator (not part of the
repository), so it is abstracted: `dump`/`insert` are arbitrary functions,
returning `none` when the call throws, and a flag records whether the
global `piexif` binding exists.  Tag values are JavaScript strings; a field
that is absent or falsy (the `if (exifData.Make)` guards) is `none`. -/

/-- The whitelisted tag fields of the `exifData` object read by
`injectExifToDataUrl`; `none` models an absent or falsy field. -/
structure ExifData where
  make : Option String
  model : Option String
  software : Option String
  dateTime : Option String
  artist : Option String
  copyright : Option String
  dateTimeOriginal : Option String
  dateTimeDigitized : Option String
  exposureTime : Option String
  fNumber : Option String
  iso : Option String
  focalLength : Option String
  lensModel : Option String
  gpsLatitude : Option String
  gpsLongitude : Option String
  deriving DecidableEq

/-- The `exifObj` handed to `piexif.dump`: the three populated IFD sections,
each a list of (tag, value) pairs in the order the source assigns them.
The numeric `piexif.ImageIFD.*` tag identifiers live in the external
library, so tags are identified here by their names. -/
structure ExifObjSections where
  zeroth : List (String × String)
  exif : List (String × String)
  gps : List (String × String)
  deriving DecidableEq

/-- A present field contributes one (tag, value) pair, an absent one none. -/
def tagEntry (name : String) : Option String → List (String × String)
  | some v => [(name, v)]
  | none => []

/-- Lines 242-270: populate the three IFD sections from the whitelisted
fields, in source order. -/
def buildExifObj (d : ExifData) : ExifObjSections where
  zeroth :=
    tagEntry "Make" d.make ++ tagEntry "Model" d.model ++
    tagEntry "Software" d.software ++ tagEntry "DateTime" d.dateTime ++
    tagEntry "Artist" d.artist ++ tagEntry "Copyright" d.copyright
  exif :=
    tagEntry "DateTimeOriginal" d.dateTimeOriginal ++
    tagEntry "DateTimeDigitized" d.dateTimeDigitized ++
    tagEntry "ExposureTime" d.exposureTime ++ tagEntry "FNumber" d.fNumber ++
    tagEntry "ISOSpeedRatings" d.iso ++
    tagEntry "FocalLength" d.focalLength ++ tagEntry "LensModel" d.lensModel
  gps :=
    tagEntry "GPSLatitude" d.gpsLatitude ++
    tagEntry "GPSLongitude" d.gpsLongitude

/-- The abstract external `piexif` capability: `dump` encodes an EXIF
object to bytes, `insertSeg` splices an encoded segment into a data URL;
`none` models a thrown exception. -/
structure PiexifLib where
  dump : ExifObjSections → Option (List Nat)
  insertSeg : List Nat → String → Option String

/-- `injectExifToDataUrl(dataUrl, exifData)` (lines 235-280): return the
input unchanged when `exifData` is `null`/`undefined` or the `piexif`
global is undefined (line 236); otherwise build the EXIF object, dump and
insert it, and on a thrown exception return the original data URL
(lines 276-279). -/
def injectExifToDataUrl (piexifAvailable : Bool) (lib : PiexifLib)
    (exifData : Option ExifData) (dataUrl : String) : String :=
  match exifData, piexifAvailable with
  | none, _ => dataUrl
  | _, false => dataUrl
  | some d, true =>
    match (lib.dump (buildExifObj d)).bind (fun b => lib.insertSeg b dataUrl) with
    | none => dataUrl
    | some u => u

/-! ### The `setSrc` pipeline (image-handler.js lines 120-252)

Two focused models of `setSrc`:

* `setSrcTrace` linearizes the asynchronous control flow of one successful
  load into the sequence of pipeline events it produces, under the
  single-threaded event-loop semantics of the browser: continuations of an
  `await` run in order, the `load` event fires only after `img.src` has been
  assigned and the decode has completed, and a `requestAnimationFrame`
  callback runs after the handler that scheduled it;

* `setSrcResourceStep` captures the blob-URL bookkeeping of lines 124-143
  (DOM rebuild, revocation of the previous URL, binding of the new one).
-/

/-- Observable pipeline events of one `setSrc` invocation. -/
inductive PipelineEvent where
  | pngExtracted
  | onloadBound
  | srcAssigned
  | decodeCompleted
  | exifExtracted
  | transformInvoked (kind : String)
  | displayedAsIs
  deriving DecidableEq

/-- The event trace of one successful `setSrc(src, …, skipAuto,
preserveExif, sourceBlob)` call, by the branch structure of lines 148-251:
with metadata preservation (preserveExif, not skipAuto, blob present) the
PNG text is extracted from the raw bytes before `img.src` is assigned, the
`onload` handler then extracts EXIF and dispatches the configured transform;
without preservation the handler (if any auto action is configured)
dispatches the transform directly; with skipAuto the image is only shown. -/
def setSrcTrace (preserveExif skipAuto hasSourceBlob : Bool)
    (autoAction : String) : List PipelineEvent :=
  if preserveExif ∧ ¬skipAuto ∧ hasSourceBlob then
    [.pngExtracted, .onloadBound, .srcAssigned, .decodeCompleted,
     .exifExtracted] ++
    (if autoAction = "encrypt" then [.transformInvoked "encrypt"]
     else if autoAction = "decrypt" then [.transformInvoked "decrypt"]
     else [.displayedAsIs])
  else if ¬skipAuto then
    if autoAction = "encrypt" then
      [.onloadBound, .srcAssigned, .decodeCompleted, .transformInvoked "encrypt"]
    else if autoAction = "decrypt" then
      [.onloadBound, .srcAssigned, .decodeCompleted, .transformInvoked "decrypt"]
    else [.srcAssigned, .displayedAsIs]
  else [.srcAssigned, .displayedAsIs]

/-- The display-surface state seen by `setSrc`: whether the element
`display-img` is in the document, and the URL currently bound to it
(the empty list when none).  URLs are strings modelled as code-point
lists. -/
structure DisplayState where
  displayImgExists : Bool
  imgSrc : List Nat
  deriving DecidableEq

/-- The code points of `"blob:"`. -/
def blobColon : List Nat := [98, 108, 111, 98, 58]

/-- The resource effects of one `setSrc(newSrc, …)` call, lines 124-143 and
the unconditional `img.src = src` of every branch: if `display-img` is
missing, `rebuildImageDOM` recreates it with an empty `src` (line 100);
then the previous URL is revoked iff it is non-empty and starts with
`blob:` (lines 138-140); finally the new URL is bound.  Returns the revoked
URLs (in order) and the final bound URL. -/
def setSrcResourceStep (st : DisplayState) (newSrc : List Nat) :
    List (List Nat) × List Nat :=
  let src1 := if st.displayImgExists then st.imgSrc else []
  let revoked := if src1 ≠ [] ∧ src1.take 5 = blobColon then [src1] else []
  (revoked, newSrc)

/-! ### The standard CRC-32, written from the specification

The spec describes the checksum as "the standard reversed polynomial
0xEDB88320, seeded at 0xFFFFFFFF and finalized with a final XOR of
0xFFFFFFFF".  `crc32Spec` states that algorithm independently of the
source's loop shape, for comparison with `calculateCRC`. -/

/-- The reversed CRC-32 polynomial. -/
def crc32Poly : Nat := 3988292384

/-- One bit round of the standard CRC-32: shift right, and fold in the
polynomial iff the bit shifted out was set. -/
def crc32SpecStep (c : Nat) : Nat :=
  if c % 2 = 1 then Nat.xor (c / 2) crc32Poly else c / 2

/-- One byte of the standard CRC-32: XOR the byte into the register, then
run eight bit rounds. -/
def crc32SpecByte (c b : Nat) : Nat :=
  (List.range 8).foldl (fun acc _ => crc32SpecStep acc) (Nat.xor c b)

/-- The standard CRC-32 of a message. -/
def crc32Spec (msg : List Nat) : Nat :=
  Nat.xor (msg.foldl crc32SpecByte 4294967295) 4294967295

/-- The 8-byte PNG signature as the specification states it. -/
def specPngSignature : List Nat := [137, 80, 78, 71, 13, 10, 26, 10]

/-- An `exifData` object none of whose whitelisted fields is present. -/
def emptyExifData : ExifData :=
  ⟨none, none, none, none, none, none, none, none, none, none, none, none,
   none, none, none⟩

/-- A `piexif` model whose `dump` always throws. -/
def throwingPiexif : PiexifLib := ⟨fun _ => none, fun _ u => some u⟩

/-- A minimal PNG-prefixed buffer on which the insertion step of
`injectPngMetadata` throws: the single chunk claims length 1 but the buffer
ends at its header, so the IDAT scan overruns the buffer and the
`Uint8Array.set` call at the overrun offset raises a `RangeError`. -/
def throwingPng : List Nat :=
  [137, 80, 78, 71, 13, 10, 26, 10, 0, 0, 0, 1, 65, 66, 67, 68]

/-- A one-entry metadata mapping. -/
def oneEntry : Metadata := [([65], [66])]

/-- A `piexif` model that succeeds and, like the real library, splices an
EXIF segment into the data URL (so the output differs from the input). -/
def appendingPiexif : PiexifLib := ⟨fun _ => some [], fun _ u => some (u ++ "!")⟩

/-- The chunk walk never finishes on `bytes`: no amount of fuel completes
the loop. -/
def walkDiverges (bytes : List Nat) : Prop :=
  ∀ fuel, pngWalk fuel bytes 8 [] = none

/-- A signed PNG whose single chunk header carries the length field
`FF FF FF F4` (signed value −12): the walk's offset increment
`12 + length` is zero, so the loop re-reads the same header forever. -/
def stuckPng : List Nat :=
  [137, 80, 78, 71, 13, 10, 26, 10, 255, 255, 255, 244, 65, 66, 67, 68]

/-- A parsed PNG chunk, as laid out on the wire; the codec never verifies
the CRC on read, so `crc` is just four stored bytes. -/
structure PngChunk where
  typ : List Nat
  data : List Nat
  crc : List Nat
  deriving DecidableEq

/-- Wire layout of one chunk:
`u32be length ‖ type ‖ data ‖ crc`. -/
def serializeChunk (c : PngChunk) : List Nat :=
  u32be c.data.length ++ c.typ ++ c.data ++ c.crc

/-- Well-formedness of a chunk record: 4-byte type and CRC, byte-valued
contents, and a data length whose big-endian length field reads back as a
non-negative signed 32-bit value. -/
def WFChunk (c : PngChunk) : Prop :=
  c.typ.length = 4 ∧ c.crc.length = 4 ∧ c.data.length < 2147483648 ∧
  (∀ b ∈ c.typ, b < 256) ∧ (∀ b ∈ c.data, b < 256) ∧ (∀ b ∈ c.crc, b < 256)

instance (c : PngChunk) : Decidable (WFChunk c) := by
  rw [WFChunk]
  infer_instance

/-- The byte stream of a list of chunks. -/
def chunksBytes (cs : List PngChunk) : List Nat :=
  (cs.map serializeChunk).flatten

/-- The byte stream of the `tEXt` chunks built from a metadata entry
list. -/
def textChunksBytes (entries : Metadata) : List Nat :=
  (entries.map fun e => createTextChunk e.1 e.2).flatten

/-- The chunk walk, divorced from its fuel: some fuel drives the walk on
`bytes` from `off` with accumulator `md` to the result `r`. -/
def WalkEval (bytes : List Nat) (off : Int) (md r : Metadata) : Prop :=
  ∃ fuel, pngWalk fuel bytes off md = some r

/-- The IDAT scan, divorced from its fuel. -/
def ScanEval (bytes : List Nat) (off r : Int) : Prop :=
  ∃ fuel, idatScan fuel bytes off = some r

/-- An IHDR-shaped chunk for concrete witnesses. -/
def ihdrChunk : PngChunk :=
  ⟨[73, 72, 68, 82], [0, 0, 0, 1, 0, 0, 0, 1, 8, 0, 0, 0, 0], [1, 2, 3, 4]⟩

/-- An IDAT chunk with two data bytes for concrete witnesses. -/
def idatChunk : PngChunk := ⟨[73, 68, 65, 84], [9, 9], [0, 0, 0, 0]⟩

/-- An IEND chunk for concrete witnesses. -/
def iendChunk : PngChunk := ⟨[73, 69, 78, 68], [], [0, 0, 0, 0]⟩

/-- A minimal PNG (signature and one empty IDAT chunk) for the round-trip
counterexample. -/
def roundtripPng : List Nat :=
  [137, 80, 78, 71, 13, 10, 26, 10, 0, 0, 0, 0, 73, 68, 65, 84, 0, 0, 0, 0]

/-- A mapping whose text holds the single non-ASCII code point U+00E9. -/
def accentEntries : Metadata := [([65], [233])]

theorem crcStep_eq (x : Nat) :
    Nat.xor (x >>> 1) (if x &&& 1 = 1 then 3988292384 else 0) = crc32SpecStep x := by
  rw [crc32SpecStep, crc32Poly, Nat.and_one_is_mod, Nat.shiftRight_eq_div_pow, pow_one]
  rcases Nat.mod_two_eq_zero_or_one x with h | h <;> simp [h]
  exact Nat.xor_zero (x / 2)

theorem crcByte_eq (c b : Nat) :
    crcLoop8 8 (Nat.xor c b) = crc32SpecByte c b := by
  show crcLoop8 8 (Nat.xor c b) = _
  rw [crc32SpecByte]
  norm_num [List.range_succ]
  simp only [crcLoop8, crcStep_eq]

theorem calculateCRC_eq_crc32Spec (data : List Nat) :
    calculateCRC data = crc32Spec data := by
  rw [calculateCRC, crc32Spec]
  congr 1
  have hf : (fun crc b => crcLoop8 8 (Nat.xor crc b)) = crc32SpecByte := by
    funext c b
    exact crcByte_eq c b
  rw [hf]

set_option maxRecDepth 4000 in
/-- The standard check value: CRC-32 of the ASCII bytes of `"123456789"`. -/
theorem crc32Spec_check : crc32Spec [49, 50, 51, 52, 53, 54, 55, 56, 57] = 3421780262 := by
  decide

/-- C2: for every keyword and text, the CRC field (the last four bytes) of
the `tEXt` chunk built by `createTextChunk` is the big-endian serialization
of the standard CRC-32 — reversed polynomial 0xEDB88320, seed 0xFFFFFFFF,
final XOR 0xFFFFFFFF — computed over the 4-byte type followed by the chunk
data `keyword ‖ 0 ‖ text`. -/
theorem C2_text_chunk_crc (keyword text : List Nat) :
    (createTextChunk keyword text).drop
        (8 + (utf8Encode keyword ++ [0] ++ utf8Encode text).length) =
      u32be (crc32Spec (tEXtType ++ (utf8Encode keyword ++ [0] ++ utf8Encode text))) := by
  rw [createTextChunk, calculateCRC_eq_crc32Spec]
  rw [show ∀ (a b c d : List Nat), a ++ b ++ c ++ d = (a ++ b ++ c) ++ d from
    fun a b c d => by simp]
  apply List.drop_left'
  simp [u32be, tEXtType]
  omega

/-- C8: injecting an absent (`null`) or empty metadata mapping is a no-op:
`injectPngMetadata` returns the input bytes unchanged, for every input and
every fuel. -/
theorem C8_empty_mapping_noop (bytes : List Nat) (fuel : Nat) :
    injectPngMetadata bytes none fuel = some bytes ∧
    injectPngMetadata bytes (some []) fuel = some bytes :=
  ⟨rfl, rfl⟩

/-- C3 counterexample: in the trace of `setSrc` with `preserveExif = true`,
`skipAuto = false`, a source blob, and auto-action `encrypt`, decode
completion and PNG-text extraction each occur exactly once, but decode
completion does NOT precede PNG-text extraction — the PNG text is read from
the raw bytes before `img.src` is even assigned, refuting the claimed order
"decode completes, then PNG text is extracted". -/
theorem C3_counterexample :
    (setSrcTrace true false true "encrypt").count PipelineEvent.decodeCompleted = 1 ∧
    (setSrcTrace true false true "encrypt").count PipelineEvent.pngExtracted = 1 ∧
    ¬ ((setSrcTrace true false true "encrypt").indexOf PipelineEvent.decodeCompleted <
        (setSrcTrace true false true "encrypt").indexOf PipelineEvent.pngExtracted) := by
  decide

/-- C3 amended: with `preserveExif = true`, `skipAuto = false`, a source
blob, and auto-action `encrypt`, the transform is dispatched exactly once,
only after both extractions have resolved, in the order: PNG text is
extracted, decode completes, EXIF is extracted, then the transform is
dispatched. -/
theorem C3_transform_after_extraction :
    setSrcTrace true false true "encrypt" =
      [PipelineEvent.pngExtracted, PipelineEvent.onloadBound,
       PipelineEvent.srcAssigned, PipelineEvent.decodeCompleted,
       PipelineEvent.exifExtracted, PipelineEvent.transformInvoked "encrypt"] ∧
    (setSrcTrace true false true "encrypt").count
        (PipelineEvent.transformInvoked "encrypt") = 1 := by
  decide

/-- C4 counterexample: the buffer `89 50 4E 47 00 00 00 00` does not start
with the 8-byte PNG signature, yet `extractPngMetadata` records format
`png` (not `jpeg`): the source validates only the first four signature
bytes. -/
theorem C4_counterexample :
    [137, 80, 78, 71, 0, 0, 0, 0].take 8 ≠ specPngSignature ∧
    extractPngMetadata [137, 80, 78, 71, 0, 0, 0, 0] 1 = some ("png", none) ∧
    (("png" : String), (none : Option Metadata)) ≠ (("jpeg" : String), none) := by
  refine ⟨by decide, by decide, by decide⟩

/-- C4 amended: `extractPngMetadata` validates the first four bytes of the
PNG signature; for every buffer that does not start with `89 50 4E 47` it
records format `jpeg` and returns no metadata, for every fuel (no exception
is raised: the result is total). -/
theorem C4_sig_mismatch_yields_jpeg (bytes : List Nat) (fuel : Nat)
    (h : ¬(byteAt bytes 0 = 137 ∧ byteAt bytes 1 = 80 ∧ byteAt bytes 2 = 78 ∧
        byteAt bytes 3 = 71)) :
    extractPngMetadata bytes fuel = some ("jpeg", none) := by
  rw [extractPngMetadata, if_neg h]

theorem C4_witness :
    ¬(byteAt [1, 2, 3] 0 = 137 ∧ byteAt [1, 2, 3] 1 = 80 ∧
        byteAt [1, 2, 3] 2 = 78 ∧ byteAt [1, 2, 3] 3 = 71) ∧
    extractPngMetadata [1, 2, 3] 0 = some ("jpeg", none) :=
  ⟨by decide, C4_sig_mismatch_yields_jpeg [1, 2, 3] 0 (by decide)⟩

/-- C5: when `setSrc` loads a new URL `b` while a blob URL `a` is bound to
the display surface (the `display-img` element exists and its `src` is
`a`), `a` is revoked exactly once, `b` is never revoked, and `b` ends up
bound. -/
theorem C5_revokes_previous_url_once (st : DisplayState) (a b : List Nat)
    (hel : st.displayImgExists = true) (hsrc : st.imgSrc = a)
    (hblob : a.take 5 = blobColon) (hne : b ≠ a) :
    (setSrcResourceStep st b).1.count a = 1 ∧
    b ∉ (setSrcResourceStep st b).1 ∧
    (setSrcResourceStep st b).2 = b := by
  have hane : a ≠ [] := by
    intro h
    rw [h] at hblob
    exact absurd hblob (by decide)
  have key : setSrcResourceStep st b = ([a], b) := by
    rw [setSrcResourceStep]
    simp only [hel, if_true, hsrc]
    rw [if_pos ⟨hane, hblob⟩]
  rw [key]
  exact ⟨by simp, by simp [hne], rfl⟩

/-- C7: injection failure is atomic.  If the encode/insert step inside the
`try` of `injectPngMetadata` throws, the catch returns the original bytes;
if `piexif.dump`/`piexif.insert` inside `injectExifToDataUrl` throws, the
catch returns the original data URL. -/
theorem C7_injection_failure_returns_original :
    (∀ (bytes : List Nat) (entries : Metadata) (fuel : Nat),
        entries.isEmpty = false →
        injectBody bytes entries fuel = some none →
        injectPngMetadata bytes (some entries) fuel = some bytes) ∧
    (∀ (lib : PiexifLib) (d : ExifData) (url : String),
        (lib.dump (buildExifObj d)).bind (fun b => lib.insertSeg b url) = none →
        injectExifToDataUrl true lib (some d) url = url) := by
  constructor
  · intro bytes entries fuel hne hthrow
    simp only [injectPngMetadata, hne, hthrow, if_neg Bool.false_ne_true]
  · intro lib d url h
    simp only [injectExifToDataUrl, h]

theorem C7_witness :
    injectPngMetadata throwingPng (some oneEntry) 10 = some throwingPng ∧
    injectExifToDataUrl true throwingPiexif (some emptyExifData) "data:u" =
      "data:u" :=
  ⟨C7_injection_failure_returns_original.1 throwingPng oneEntry 10 (by decide)
      (by decide),
   C7_injection_failure_returns_original.2 throwingPiexif emptyExifData
      "data:u" rfl⟩

/-- C9 counterexample: with `piexif` available and a present-but-empty tag
mapping (an `exifData` object none of whose whitelisted fields is truthy),
`injectExifToDataUrl` does NOT return its input unchanged: the guard on
line 236 tests only `!exifData`, so an empty object is passed to
`piexif.dump`/`piexif.insert` and the inserted segment changes the URL. -/
theorem C9_counterexample :
    injectExifToDataUrl true appendingPiexif (some emptyExifData) "data:u" =
      "data:u!" ∧ ("data:u!" : String) ≠ "data:u" :=
  ⟨rfl, by decide⟩

/-- C9 amended: `injectExifToDataUrl` returns its input unchanged whenever
the external `piexif` capability is unavailable or the tag mapping is
absent (`null`/`undefined`); a present-but-empty mapping is instead handed
to the encoder. -/
theorem C9_absent_mapping_noop (avail : Bool) (lib : PiexifLib)
    (exifData : Option ExifData) (url : String)
    (h : exifData = none ∨ avail = false) :
    injectExifToDataUrl avail lib exifData url = url := by
  rcases h with h | h
  · rw [h]
    cases avail <;> rfl
  · rw [h]
    cases exifData <;> rfl

theorem C9_witness :
    injectExifToDataUrl false appendingPiexif (some emptyExifData) "data:u" =
      "data:u" :=
  C9_absent_mapping_noop false appendingPiexif (some emptyExifData) "data:u"
    (Or.inr rfl)

/-- C10 counterexample: the chunk walk of `extractPngMetadata` does not
terminate on every buffer — on `stuckPng` the signed length −12 freezes the
offset at 8 and the walk diverges. -/
theorem C10_counterexample : walkDiverges stuckPng := by
  have hstep : ∀ m, pngWalk (m + 1) stuckPng 8 [] = pngWalk m stuckPng 8 [] := by
    intro m
    have hlen : readLength stuckPng 8 = -12 := by decide
    have htyp : typeAt stuckPng (8 + 4) = [65, 66, 67, 68] := by decide
    rw [pngWalk, hlen, htyp]
    norm_num [tEXtType, iTXtType, iendType, stuckPng]
  intro fuel
  induction fuel with
  | zero => rfl
  | succ n ih => rw [hstep n]; exact ih

/-- C10 amended: the chunk walk terminates (some fuel completes it) on
every buffer all of whose in-range 4-byte length reads exceed −12, i.e.
whenever each loop iteration advances the offset; a length field of −12 or
below (high bit set) can freeze or rewind the offset and loop forever. -/
theorem C10_walk_terminates (bytes : List Nat)
    (h : ∀ o : Int, 0 ≤ o → o < (bytes.length : Int) → -12 < readLength bytes o) :
    ∃ fuel, (pngWalk fuel bytes 8 []).isSome := by
  suffices haux : ∀ (n : Nat) (off : Int) (md : Metadata), 0 ≤ off →
      ((bytes.length : Int) - off).toNat ≤ n → (pngWalk (n + 1) bytes off md).isSome by
    exact ⟨((bytes.length : Int) - 8).toNat + 1,
      haux ((bytes.length : Int) - 8).toNat 8 [] (by norm_num) le_rfl⟩
  intro n
  induction n with
  | zero =>
    intro off md h0 hn
    rw [pngWalk]
    rw [if_neg (by omega)]
    rfl
  | succ k ih =>
    intro off md h0 hn
    rw [pngWalk]
    by_cases hoff : off < (bytes.length : Int)
    · rw [if_pos hoff]
      have hlen : -12 < readLength bytes off := h off h0 hoff
      dsimp only
      split
      · rfl
      · exact ih (off + 12 + readLength bytes off) _ (by omega) (by omega)
    · rw [if_neg hoff]
      rfl

/-! ### Groundwork for the chunk-stream theorems (C1, C6)

Serialized chunk streams, and how the readers of the source behave at a
chunk boundary. -/

theorem lor_mul_two_pow_add (k a b : Nat) (hb : b < 2 ^ k) :
    (2 ^ k * a) ||| b = 2 ^ k * a + b := by
  apply Nat.eq_of_testBit_eq
  intro j
  rw [Nat.testBit_lor, Nat.testBit_mul_pow_two, Nat.testBit_mul_pow_two_add a hb]
  by_cases hj : j < k
  · have : ¬ j ≥ k := by omega
    simp [hj, this]
  · have hb' : b < 2 ^ j := lt_of_lt_of_le hb (Nat.pow_le_pow_right (by norm_num) (by omega))
    have : j ≥ k := by omega
    simp [hj, this, Nat.testBit_lt_two_pow hb']

theorem bytes_lor_eq (b0 b1 b2 b3 : Nat) (h1 : b1 < 256) (h2 : b2 < 256)
    (h3 : b3 < 256) :
    b0 <<< 24 ||| b1 <<< 16 ||| b2 <<< 8 ||| b3 =
      b0 * 16777216 + b1 * 65536 + b2 * 256 + b3 := by
  have e0 : b0 <<< 24 = 2 ^ 24 * b0 := by rw [Nat.shiftLeft_eq]; ring
  have e1 : b1 <<< 16 = 2 ^ 16 * b1 := by rw [Nat.shiftLeft_eq]; ring
  have e2 : b2 <<< 8 = 2 ^ 8 * b2 := by rw [Nat.shiftLeft_eq]; ring
  rw [e0, e1, e2]
  rw [lor_mul_two_pow_add 24 b0 (2 ^ 16 * b1) (by norm_num; omega)]
  rw [show 2 ^ 24 * b0 + 2 ^ 16 * b1 = 2 ^ 16 * (256 * b0 + b1) from by ring]
  rw [lor_mul_two_pow_add 16 (256 * b0 + b1) (2 ^ 8 * b2) (by norm_num; omega)]
  rw [show 2 ^ 16 * (256 * b0 + b1) + 2 ^ 8 * b2 =
    2 ^ 8 * (256 * (256 * b0 + b1) + b2) from by ring]
  rw [lor_mul_two_pow_add 8 (256 * (256 * b0 + b1) + b2) b3 (by omega)]
  ring

theorem toInt32_small (n : Nat) (h : n < 2147483648) : toInt32 n = (n : Int) := by
  rw [toInt32]
  have : n % 4294967296 = n := Nat.mod_eq_of_lt (by omega)
  simp only [this]
  rw [if_pos (by exact_mod_cast h)]

theorem byteAt_append_right (a b : List Nat) (i : Int) (h0 : 0 ≤ i) :
    byteAt (a ++ b) ((a.length : Int) + i) = byteAt b i := by
  rw [byteAt, byteAt]
  by_cases hi : i < (b.length : Int)
  · rw [if_pos ⟨by omega, by rw [List.length_append]; push_cast; omega⟩,
      if_pos ⟨h0, hi⟩]
    have ht : ((a.length : Int) + i).toNat = a.length + i.toNat := by omega
    rw [ht, List.getD_eq_getElem?_getD, List.getD_eq_getElem?_getD,
      List.getElem?_append_right (by omega),
      show a.length + i.toNat - a.length = i.toNat from by omega]
  · rw [if_neg (by rw [List.length_append]; push_cast; omega),
      if_neg (by omega)]

theorem byteAt_append_left (a b : List Nat) (i : Int) (h0 : 0 ≤ i)
    (h : i < (a.length : Int)) :
    byteAt (a ++ b) i = byteAt a i := by
  rw [byteAt, byteAt]
  rw [if_pos ⟨h0, by rw [List.length_append]; push_cast; omega⟩, if_pos ⟨h0, h⟩]
  rw [List.getD_eq_getElem?_getD, List.getD_eq_getElem?_getD,
    List.getElem?_append_left (by omega)]

theorem byteAt_block (front mid rest : List Nat) (j : Int)
    (h1 : (front.length : Int) ≤ j) (h2 : j < (front.length : Int) + mid.length) :
    byteAt (front ++ mid ++ rest) j = byteAt mid (j - front.length) := by
  rw [show front ++ mid ++ rest = front ++ (mid ++ rest) from by simp]
  rw [show j = (front.length : Int) + (j - front.length) from by omega]
  rw [byteAt_append_right front (mid ++ rest) (j - front.length) (by omega)]
  rw [show (front.length : Int) + (j - ↑front.length) - ↑front.length =
    j - front.length from by omega]
  exact byteAt_append_left mid rest (j - front.length) (by omega) (by omega)

theorem u32be_length (n : Nat) : (u32be n).length = 4 := rfl

theorem byteAt_u32be (n : Nat) :
    byteAt (u32be n) 0 = n % 4294967296 / 16777216 % 256 ∧
    byteAt (u32be n) 1 = n % 4294967296 / 65536 % 256 ∧
    byteAt (u32be n) 2 = n % 4294967296 / 256 % 256 ∧
    byteAt (u32be n) 3 = n % 4294967296 % 256 := by
  refine ⟨?_, ?_, ?_, ?_⟩ <;> rw [u32be, byteAt] <;> simp

theorem readLength_u32be (front rest : List Nat) (n : Nat)
    (h : n < 2147483648) :
    readLength (front ++ u32be n ++ rest) (front.length : Int) = (n : Int) := by
  have hm : n % 4294967296 = n := Nat.mod_eq_of_lt (by omega)
  obtain ⟨u0, u1, u2, u3⟩ := byteAt_u32be n
  have c0 : byteAt (front ++ u32be n ++ rest) (front.length : Int) =
      n / 16777216 % 256 := by
    rw [byteAt_block front (u32be n) rest (front.length : Int) (by omega)
      (by rw [u32be_length]; omega)]
    rw [show ((front.length : Int) - front.length) = 0 from by omega, u0, hm]
  have c1 : byteAt (front ++ u32be n ++ rest) ((front.length : Int) + 1) =
      n / 65536 % 256 := by
    rw [byteAt_block front (u32be n) rest ((front.length : Int) + 1) (by omega)
      (by rw [u32be_length]; omega)]
    rw [show ((front.length : Int) + 1 - front.length) = 1 from by omega, u1, hm]
  have c2 : byteAt (front ++ u32be n ++ rest) ((front.length : Int) + 2) =
      n / 256 % 256 := by
    rw [byteAt_block front (u32be n) rest ((front.length : Int) + 2) (by omega)
      (by rw [u32be_length]; omega)]
    rw [show ((front.length : Int) + 2 - front.length) = 2 from by omega, u2, hm]
  have c3 : byteAt (front ++ u32be n ++ rest) ((front.length : Int) + 3) =
      n % 256 := by
    rw [byteAt_block front (u32be n) rest ((front.length : Int) + 3) (by omega)
      (by rw [u32be_length]; omega)]
    rw [show ((front.length : Int) + 3 - front.length) = 3 from by omega, u3, hm]
  rw [readLength, c0, c1, c2, c3]
  rw [bytes_lor_eq _ _ _ _ (by omega) (by omega) (by omega)]
  rw [show n / 16777216 % 256 * 16777216 + n / 65536 % 256 * 65536 +
    n / 256 % 256 * 256 + n % 256 = n from by omega]
  exact toInt32_small n h

theorem serializeChunk_length (c : PngChunk) (hc : WFChunk c) :
    (serializeChunk c).length = 12 + c.data.length := by
  obtain ⟨ht, hcrc, -, -, -, -⟩ := hc
  rw [serializeChunk]
  simp [u32be_length, ht, hcrc]
  omega

theorem typeAt_block (front : List Nat) (c : PngChunk) (rest : List Nat)
    (hc : WFChunk c) :
    typeAt (front ++ serializeChunk c ++ rest) ((front.length : Int) + 4) =
      c.typ := by
  obtain ⟨ht, hcrc, hlen, htb, -, -⟩ := hc
  obtain ⟨t0, t1, t2, t3, htyp⟩ :
      ∃ t0 t1 t2 t3, c.typ = [t0, t1, t2, t3] := by
    match c.typ, ht with
    | [t0, t1, t2, t3], _ => exact ⟨t0, t1, t2, t3, rfl⟩
  have hb : ∀ i : Int, 0 ≤ i → i < 4 →
      byteAt (front ++ serializeChunk c ++ rest) ((front.length : Int) + 4 + i) =
        byteAt c.typ i := by
    intro i h0 h4
    have hassoc : front ++ serializeChunk c ++ rest =
        (front ++ u32be c.data.length) ++ c.typ ++ (c.data ++ c.crc ++ rest) := by
      rw [serializeChunk]
      simp
    rw [hassoc]
    have hfl : ((front ++ u32be c.data.length).length : Int) = front.length + 4 := by
      simp [u32be_length]
    rw [byteAt_block (front ++ u32be c.data.length) c.typ
      (c.data ++ c.crc ++ rest) ((front.length : Int) + 4 + i)
      (by rw [hfl]; omega) (by rw [hfl, ht]; push_cast; omega)]
    rw [hfl]
    congr 1
    omega
  have m0 := hb 0 (by omega) (by omega)
  have m1 := hb 1 (by omega) (by omega)
  have m2 := hb 2 (by omega) (by omega)
  have m3 := hb 3 (by omega) (by omega)
  rw [show (front.length : Int) + 4 + 0 = (front.length : Int) + 4 from by omega]
    at m0
  have hlt : ∀ b ∈ c.typ, b < 256 := htb
  rw [typeAt, m0,
    show (front.length : Int) + 4 + 1 = (front.length : Int) + 4 + 1 from rfl, m1,
    m2, m3, htyp]
  rw [htyp] at hlt
  have l0 : t0 < 256 := hlt t0 (by simp)
  have l1 : t1 < 256 := hlt t1 (by simp)
  have l2 : t2 < 256 := hlt t2 (by simp)
  have l3 : t3 < 256 := hlt t3 (by simp)
  have e : ∀ x : Nat, x < 256 → x % 65536 = x := fun x hx =>
    Nat.mod_eq_of_lt (by omega)
  rw [show byteAt [t0, t1, t2, t3] 0 = t0 from by rw [byteAt]; simp,
    show byteAt [t0, t1, t2, t3] 1 = t1 from by rw [byteAt]; simp,
    show byteAt [t0, t1, t2, t3] 2 = t2 from by rw [byteAt]; simp,
    show byteAt [t0, t1, t2, t3] 3 = t3 from by rw [byteAt]; simp,
    e t0 l0, e t1 l1, e t2 l2, e t3 l3]

theorem jsSlice_of_bounds (l : List Nat) (b e : Int) (h0 : 0 ≤ b) (hbe : b ≤ e)
    (he : e ≤ (l.length : Int)) :
    jsSlice l b e = (l.take e.toNat).drop b.toNat := by
  rw [jsSlice]
  rw [if_neg (by omega), if_neg (by omega), min_eq_left he,
    min_eq_left (by omega)]

theorem jsSlice_middle (a mid z : List Nat) :
    jsSlice (a ++ mid ++ z) (a.length : Int)
      ((a.length : Int) + mid.length) = mid := by
  rw [jsSlice_of_bounds _ _ _ (by omega) (by omega)
    (by rw [List.length_append, List.length_append]; push_cast; omega)]
  rw [show ((a.length : Int) + mid.length).toNat = a.length + mid.length from
    by omega]
  rw [show (a.length : Int).toNat = a.length from by omega]
  rw [show a ++ mid ++ z = (a ++ mid) ++ z from by simp]
  rw [List.take_left' (by simp)]
  exact List.drop_left' rfl

theorem jsSlice_front (l : List Nat) (k : Nat) (hk : k ≤ l.length) :
    jsSlice l 0 (k : Int) = l.take k := by
  rw [jsSlice_of_bounds _ _ _ (by omega) (by omega) (by omega)]
  rw [show ((k : Int)).toNat = k from by omega,
    show ((0 : Int)).toNat = 0 from by omega, List.drop_zero]

theorem jsSlice_suffix (l : List Nat) (k : Nat) (hk : k ≤ l.length) :
    jsSlice l (k : Int) (l.length : Int) = l.drop k := by
  rw [jsSlice_of_bounds _ _ _ (by omega) (by omega) (by omega)]
  rw [show ((l.length : Int)).toNat = l.length from by omega,
    show ((k : Int)).toNat = k from by omega, List.take_length]

theorem chunk_readLength (front : List Nat) (c : PngChunk) (rest : List Nat)
    (hc : WFChunk c) :
    readLength (front ++ serializeChunk c ++ rest) (front.length : Int) =
      (c.data.length : Int) := by
  have hassoc : front ++ serializeChunk c ++ rest =
      front ++ u32be c.data.length ++ (c.typ ++ (c.data ++ (c.crc ++ rest))) := by
    rw [serializeChunk]
    simp
  rw [hassoc]
  exact readLength_u32be _ _ _ hc.2.2.1

theorem chunk_length_bound (front : List Nat) (c : PngChunk) (rest : List Nat)
    (hc : WFChunk c) :
    (front.length : Int) <
      ((front ++ serializeChunk c ++ rest).length : Int) := by
  rw [List.length_append, List.length_append, serializeChunk_length c hc]
  push_cast
  omega

theorem chunk_data_slice (front : List Nat) (c : PngChunk) (rest : List Nat)
    (hc : WFChunk c) :
    jsSlice (front ++ serializeChunk c ++ rest) ((front.length : Int) + 8)
      ((front.length : Int) + 8 + c.data.length) = c.data := by
  have hassoc : front ++ serializeChunk c ++ rest =
      (front ++ u32be c.data.length ++ c.typ) ++ c.data ++ (c.crc ++ rest) := by
    rw [serializeChunk]
    simp
  have hal : ((front ++ u32be c.data.length ++ c.typ).length : Int) =
      (front.length : Int) + 8 := by
    rw [List.length_append, List.length_append, u32be_length, hc.1]
    push_cast
    omega
  rw [hassoc, show (front.length : Int) + 8 =
    ((front ++ u32be c.data.length ++ c.typ).length : Int) from hal.symm]
  exact jsSlice_middle _ _ _

theorem pngWalk_step_skip (fuel : Nat) (front : List Nat) (c : PngChunk)
    (rest : List Nat) (md : Metadata) (hc : WFChunk c)
    (h1 : c.typ ≠ tEXtType) (h2 : c.typ ≠ iTXtType) (h3 : c.typ ≠ iendType) :
    pngWalk (fuel + 1) (front ++ serializeChunk c ++ rest)
        (front.length : Int) md =
      pngWalk fuel (front ++ serializeChunk c ++ rest)
        ((front.length : Int) + 12 + c.data.length) md := by
  rw [pngWalk, if_pos (chunk_length_bound front c rest hc),
    chunk_readLength front c rest hc, typeAt_block front c rest hc]
  dsimp only
  rw [if_neg h1, if_neg h2, if_neg h3]

theorem pngWalk_step_iend (fuel : Nat) (front : List Nat) (c : PngChunk)
    (rest : List Nat) (md : Metadata) (hc : WFChunk c)
    (h3 : c.typ = iendType) :
    pngWalk (fuel + 1) (front ++ serializeChunk c ++ rest)
        (front.length : Int) md = some md := by
  rw [pngWalk, if_pos (chunk_length_bound front c rest hc),
    chunk_readLength front c rest hc, typeAt_block front c rest hc, h3]
  dsimp only
  rw [if_neg (show ¬iendType = tEXtType from by decide),
    if_neg (show ¬iendType = iTXtType from by decide), if_pos rfl]

theorem pngWalk_step_tEXt (fuel : Nat) (front : List Nat) (c : PngChunk)
    (rest : List Nat) (md : Metadata) (hc : WFChunk c)
    (ht : c.typ = tEXtType) :
    pngWalk (fuel + 1) (front ++ serializeChunk c ++ rest)
        (front.length : Int) md =
      pngWalk fuel (front ++ serializeChunk c ++ rest)
        ((front.length : Int) + 12 + c.data.length)
        (objInsert md (parseTEXt c.data).1 (parseTEXt c.data).2) := by
  rw [pngWalk, if_pos (chunk_length_bound front c rest hc),
    chunk_readLength front c rest hc, typeAt_block front c rest hc, ht]
  dsimp only
  rw [if_pos rfl, chunk_data_slice front c rest hc,
    if_neg (show ¬tEXtType = iendType from by decide)]

theorem idatScan_step_skip (fuel : Nat) (front : List Nat) (c : PngChunk)
    (rest : List Nat) (hc : WFChunk c) (h1 : c.typ ≠ idatType) :
    idatScan (fuel + 1) (front ++ serializeChunk c ++ rest)
        (front.length : Int) =
      idatScan fuel (front ++ serializeChunk c ++ rest)
        ((front.length : Int) + 12 + c.data.length) := by
  rw [idatScan, if_pos (chunk_length_bound front c rest hc),
    typeAt_block front c rest hc, if_neg h1,
    chunk_readLength front c rest hc]

theorem idatScan_step_stop (fuel : Nat) (front : List Nat) (c : PngChunk)
    (rest : List Nat) (hc : WFChunk c) (h1 : c.typ = idatType) :
    idatScan (fuel + 1) (front ++ serializeChunk c ++ rest)
        (front.length : Int) = some (front.length : Int) := by
  rw [idatScan, if_pos (chunk_length_bound front c rest hc),
    typeAt_block front c rest hc, if_pos h1]

theorem chunksBytes_cons (c : PngChunk) (cs : List PngChunk) :
    chunksBytes (c :: cs) = serializeChunk c ++ chunksBytes cs := by
  simp [chunksBytes]

theorem walkEval_end (bytes : List Nat) (off : Int) (md : Metadata)
    (h : (bytes.length : Int) ≤ off) : WalkEval bytes off md md :=
  ⟨1, by rw [pngWalk, if_neg (by omega)]⟩

theorem walkEval_cons_skip (front : List Nat) (c : PngChunk) (rest : List Nat)
    (md r : Metadata) (hc : WFChunk c) (h1 : c.typ ≠ tEXtType)
    (h2 : c.typ ≠ iTXtType) (h3 : c.typ ≠ iendType)
    (h : WalkEval (front ++ serializeChunk c ++ rest)
      (((front ++ serializeChunk c).length : Int)) md r) :
    WalkEval (front ++ serializeChunk c ++ rest) (front.length : Int) md r := by
  obtain ⟨fuel, hf⟩ := h
  refine ⟨fuel + 1, ?_⟩
  rw [pngWalk_step_skip fuel front c rest md hc h1 h2 h3,
    show (front.length : Int) + 12 + c.data.length =
      ((front ++ serializeChunk c).length : Int) from by
        rw [List.length_append, serializeChunk_length c hc]; push_cast; omega]
  exact hf

theorem walkEval_cons_tEXt (front : List Nat) (c : PngChunk) (rest : List Nat)
    (md r : Metadata) (hc : WFChunk c) (ht : c.typ = tEXtType)
    (h : WalkEval (front ++ serializeChunk c ++ rest)
      (((front ++ serializeChunk c).length : Int))
      (objInsert md (parseTEXt c.data).1 (parseTEXt c.data).2) r) :
    WalkEval (front ++ serializeChunk c ++ rest) (front.length : Int) md r := by
  obtain ⟨fuel, hf⟩ := h
  refine ⟨fuel + 1, ?_⟩
  rw [pngWalk_step_tEXt fuel front c rest md hc ht,
    show (front.length : Int) + 12 + c.data.length =
      ((front ++ serializeChunk c).length : Int) from by
        rw [List.length_append, serializeChunk_length c hc]; push_cast; omega]
  exact hf

theorem walkEval_skip_chunks (cs : List PngChunk)
    (hcs : ∀ c ∈ cs, WFChunk c ∧ c.typ ≠ tEXtType ∧ c.typ ≠ iTXtType ∧
      c.typ ≠ iendType) :
    ∀ (front rest : List Nat) (md r : Metadata),
      WalkEval (front ++ chunksBytes cs ++ rest)
        (((front ++ chunksBytes cs).length : Int)) md r →
      WalkEval (front ++ chunksBytes cs ++ rest) (front.length : Int) md r := by
  induction cs with
  | nil =>
    intro front rest md r h
    simpa [chunksBytes] using h
  | cons c cs ih =>
    intro front rest md r h
    obtain ⟨hcw, h1, h2, h3⟩ := hcs c (by simp)
    have hcs' : ∀ c' ∈ cs, WFChunk c' ∧ c'.typ ≠ tEXtType ∧
        c'.typ ≠ iTXtType ∧ c'.typ ≠ iendType :=
      fun c' hc' => hcs c' (by simp [hc'])
    rw [show front ++ chunksBytes (c :: cs) =
      (front ++ serializeChunk c) ++ chunksBytes cs from by
        rw [chunksBytes_cons]; simp] at h
    have h' := ih hcs' (front ++ serializeChunk c) rest md r h
    rw [show (front ++ serializeChunk c) ++ chunksBytes cs ++ rest =
      front ++ serializeChunk c ++ (chunksBytes cs ++ rest) from by simp] at h'
    have h'' := walkEval_cons_skip front c (chunksBytes cs ++ rest) md r hcw
      h1 h2 h3 h'
    rw [show front ++ serializeChunk c ++ (chunksBytes cs ++ rest) =
      front ++ chunksBytes (c :: cs) ++ rest from by
        rw [chunksBytes_cons]; simp] at h''
    exact h''

theorem walkEval_finish_chunks (cs : List PngChunk)
    (hcs : ∀ c ∈ cs, WFChunk c ∧ c.typ ≠ tEXtType ∧ c.typ ≠ iTXtType) :
    ∀ (front : List Nat) (md : Metadata),
      WalkEval (front ++ chunksBytes cs) (front.length : Int) md md := by
  induction cs with
  | nil =>
    intro front md
    apply walkEval_end
    simp [chunksBytes]
  | cons c cs ih =>
    intro front md
    obtain ⟨hcw, h1, h2⟩ := hcs c (by simp)
    have hcs' : ∀ c' ∈ cs, WFChunk c' ∧ c'.typ ≠ tEXtType ∧
        c'.typ ≠ iTXtType := fun c' hc' => hcs c' (by simp [hc'])
    rw [show front ++ chunksBytes (c :: cs) =
      front ++ serializeChunk c ++ chunksBytes cs from by
        rw [chunksBytes_cons]; simp]
    by_cases hiend : c.typ = iendType
    · exact ⟨1, pngWalk_step_iend 0 front c (chunksBytes cs) md hcw hiend⟩
    · apply walkEval_cons_skip front c (chunksBytes cs) md md hcw h1 h2 hiend
      have h' := ih hcs' (front ++ serializeChunk c) md
      rw [show (front ++ serializeChunk c) ++ chunksBytes cs =
        front ++ serializeChunk c ++ chunksBytes cs from by simp] at h'
      exact h'

theorem scanEval_cons_skip (front : List Nat) (c : PngChunk) (rest : List Nat)
    (r : Int) (hc : WFChunk c) (h1 : c.typ ≠ idatType)
    (h : ScanEval (front ++ serializeChunk c ++ rest)
      (((front ++ serializeChunk c).length : Int)) r) :
    ScanEval (front ++ serializeChunk c ++ rest) (front.length : Int) r := by
  obtain ⟨fuel, hf⟩ := h
  refine ⟨fuel + 1, ?_⟩
  rw [idatScan_step_skip fuel front c rest hc h1,
    show (front.length : Int) + 12 + c.data.length =
      ((front ++ serializeChunk c).length : Int) from by
        rw [List.length_append, serializeChunk_length c hc]; push_cast; omega]
  exact hf

theorem scanEval_skip_chunks (cs : List PngChunk)
    (hcs : ∀ c ∈ cs, WFChunk c ∧ c.typ ≠ idatType) :
    ∀ (front rest : List Nat) (r : Int),
      ScanEval (front ++ chunksBytes cs ++ rest)
        (((front ++ chunksBytes cs).length : Int)) r →
      ScanEval (front ++ chunksBytes cs ++ rest) (front.length : Int) r := by
  induction cs with
  | nil =>
    intro front rest r h
    simpa [chunksBytes] using h
  | cons c cs ih =>
    intro front rest r h
    obtain ⟨hcw, h1⟩ := hcs c (by simp)
    have hcs' : ∀ c' ∈ cs, WFChunk c' ∧ c'.typ ≠ idatType :=
      fun c' hc' => hcs c' (by simp [hc'])
    rw [show front ++ chunksBytes (c :: cs) =
      (front ++ serializeChunk c) ++ chunksBytes cs from by
        rw [chunksBytes_cons]; simp] at h
    have h' := ih hcs' (front ++ serializeChunk c) rest r h
    rw [show (front ++ serializeChunk c) ++ chunksBytes cs ++ rest =
      front ++ serializeChunk c ++ (chunksBytes cs ++ rest) from by simp] at h'
    have h'' := scanEval_cons_skip front c (chunksBytes cs ++ rest) r hcw h1 h'
    rw [show front ++ serializeChunk c ++ (chunksBytes cs ++ rest) =
      front ++ chunksBytes (c :: cs) ++ rest from by
        rw [chunksBytes_cons]; simp] at h''
    exact h''

theorem tryArraySet_fill (front : List Nat) (m : Nat) (src : List Nat)
    (h : src.length ≤ m) :
    tryArraySet (front ++ List.replicate m 0) src (front.length : Int) =
      some (front ++ src ++ List.replicate (m - src.length) 0) := by
  rw [tryArraySet, if_pos ⟨by omega, by
    rw [List.length_append, List.length_replicate]; push_cast; omega⟩]
  rw [show ((front.length : Int)).toNat = front.length from by omega]
  rw [List.take_left, List.drop_append, List.drop_replicate]

theorem setChunks_fill (cks : List (List Nat)) :
    ∀ (front : List Nat) (m : Nat), cks.flatten.length ≤ m →
      setChunks (front ++ List.replicate m 0) (front.length : Int) cks =
        some (front ++ cks.flatten ++
            List.replicate (m - cks.flatten.length) 0,
          ((front ++ cks.flatten).length : Int)) := by
  induction cks with
  | nil =>
    intro front m h
    rw [setChunks]
    simp
  | cons ck cks ih =>
    intro front m h
    have hflat : (ck :: cks).flatten = ck ++ cks.flatten := List.flatten_cons
    have hck : ck.length ≤ m := by
      rw [hflat, List.length_append] at h
      omega
    rw [setChunks, tryArraySet_fill front m ck hck]
    dsimp only
    have hoff : (front.length : Int) + ck.length =
        (((front ++ ck).length : Nat) : Int) := by
      rw [List.length_append]
      push_cast
      omega
    rw [hoff]
    have := ih (front ++ ck) (m - ck.length) (by
      rw [hflat, List.length_append] at h
      omega)
    rw [this]
    rw [hflat]
    have e1 : front ++ ck ++ cks.flatten = front ++ (ck ++ cks.flatten) := by
      simp
    have e2 : m - ck.length - cks.flatten.length =
        m - (ck ++ cks.flatten).length := by
      rw [List.length_append]
      omega
    rw [e1, e2]

theorem tryArraySet_fill0 (m : Nat) (src : List Nat) (h : src.length ≤ m) :
    tryArraySet (List.replicate m 0) src 0 =
      some (src ++ List.replicate (m - src.length) 0) := by
  have := tryArraySet_fill [] m src h
  simpa using this

theorem injectBody_structure (h8 : List Nat) (pre : List PngChunk)
    (idatC : PngChunk) (rest : List Nat) (entries : Metadata)
    (hh8 : h8.length = 8)
    (hpre : ∀ c ∈ pre, WFChunk c ∧ c.typ ≠ idatType)
    (hic : WFChunk idatC) (hit : idatC.typ = idatType) :
    ∃ fuel,
      injectBody ((h8 ++ chunksBytes pre) ++ (serializeChunk idatC ++ rest))
          entries fuel =
        some (some ((h8 ++ chunksBytes pre) ++ textChunksBytes entries ++
          (serializeChunk idatC ++ rest))) := by
  set G := h8 ++ chunksBytes pre with hG
  set R := serializeChunk idatC ++ rest with hR
  set textBytes := textChunksBytes entries with hTB
  -- the IDAT scan stops at the end of the pre-IDAT prefix
  have hstop : ScanEval (G ++ R) ((G.length : Int)) ((G.length : Int)) := by
    refine ⟨1, ?_⟩
    rw [show G ++ R = G ++ serializeChunk idatC ++ rest from by rw [hR]; simp]
    exact idatScan_step_stop 0 G idatC rest hic hit
  have hscanE : ScanEval (G ++ R) 8 ((G.length : Int)) := by
    have := scanEval_skip_chunks pre hpre h8 R ((G.length : Int)) hstop
    rw [show ((h8.length : Nat) : Int) = 8 from by rw [hh8]; rfl] at this
    exact this
  obtain ⟨fuelS, hscan⟩ := hscanE
  refine ⟨fuelS, ?_⟩
  have htot : ((entries.map fun e => createTextChunk e.1 e.2).map
      List.length).sum = textBytes.length := by
    rw [hTB, textChunksBytes, List.length_flatten]
  have hslice1 : jsSlice (G ++ R) 0 ((G.length : Int)) = G := by
    rw [jsSlice_front (G ++ R) G.length
      (by have := List.length_append G R; omega), List.take_left]
  have hslice2 : jsSlice (G ++ R) ((G.length : Int)) (((G ++ R).length : Int)) =
      R := by
    rw [jsSlice_suffix (G ++ R) G.length
      (by have := List.length_append G R; omega), List.drop_left]
  have hs1 : tryArraySet (List.replicate ((G ++ R).length + textBytes.length) 0)
      (jsSlice (G ++ R) 0 ((G.length : Int))) 0 =
      some (G ++ List.replicate (R.length + textBytes.length) 0) := by
    rw [hslice1, tryArraySet_fill0 _ _
      (by have := List.length_append G R; omega)]
    rw [show (G ++ R).length + textBytes.length - G.length =
      R.length + textBytes.length from by
        have := List.length_append G R; omega]
  have hs2 : setChunks (G ++ List.replicate (R.length + textBytes.length) 0)
      ((G.length : Int)) (entries.map fun e => createTextChunk e.1 e.2) =
      some (G ++ textBytes ++ List.replicate R.length 0,
        (((G ++ textBytes).length : Nat) : Int)) := by
    have hfl : (entries.map fun e => createTextChunk e.1 e.2).flatten =
        textBytes := by rw [hTB, textChunksBytes]
    have hrun := setChunks_fill (entries.map fun e => createTextChunk e.1 e.2) G
      (R.length + textBytes.length) (by rw [hfl]; omega)
    rw [hfl] at hrun
    rw [hrun]
    rw [show R.length + textBytes.length - textBytes.length = R.length from
      by omega]
  have hs3 : tryArraySet (G ++ textBytes ++ List.replicate R.length 0)
      (jsSlice (G ++ R) ((G.length : Int)) (((G ++ R).length : Int)))
      (((G ++ textBytes).length : Nat) : Int) =
      some (G ++ textBytes ++ R) := by
    rw [hslice2, tryArraySet_fill (G ++ textBytes) R.length R le_rfl]
    simp
  rw [injectBody, hscan]
  dsimp only
  rw [htot, hs1]
  rw [Option.bind_eq_bind, Option.some_bind, hs2, Option.bind_eq_bind,
    Option.some_bind, hs3]
  rfl

/-- C6: on a chunked PNG buffer (8-byte header, chunks with no IDAT before
the first IDAT chunk), injecting a non-empty mapping produces exactly the
original bytes up to the first IDAT chunk header, then the newly built
`tEXt` chunks, then the original bytes from that offset onward — so all
original chunks survive in order (IEND included, inside `rest`). -/
theorem C6_inject_inserts_before_idat (h8 : List Nat) (pre : List PngChunk)
    (idatC : PngChunk) (rest : List Nat) (entries : Metadata)
    (hh8 : h8.length = 8)
    (hpre : ∀ c ∈ pre, WFChunk c ∧ c.typ ≠ idatType)
    (hic : WFChunk idatC) (hit : idatC.typ = idatType)
    (hne : entries ≠ []) :
    ∃ fuel,
      injectPngMetadata
          ((h8 ++ chunksBytes pre) ++ (serializeChunk idatC ++ rest))
          (some entries) fuel =
        some ((h8 ++ chunksBytes pre) ++ textChunksBytes entries ++
          (serializeChunk idatC ++ rest)) := by
  obtain ⟨fuel, hbody⟩ :=
    injectBody_structure h8 pre idatC rest entries hh8 hpre hic hit
  refine ⟨fuel, ?_⟩
  have hni : entries.isEmpty = false := by
    cases entries with
    | nil => exact absurd rfl hne
    | cons a t => rfl
  simp only [injectPngMetadata, hni, if_neg Bool.false_ne_true, hbody]

theorem C6_witness :
    ∃ fuel,
      injectPngMetadata
          ((specPngSignature ++ chunksBytes [ihdrChunk]) ++
            (serializeChunk idatChunk ++ chunksBytes [iendChunk]))
          (some [([75], [86])]) fuel =
        some ((specPngSignature ++ chunksBytes [ihdrChunk]) ++
          textChunksBytes [([75], [86])] ++
          (serializeChunk idatChunk ++ chunksBytes [iendChunk])) :=
  C6_inject_inserts_before_idat specPngSignature [ihdrChunk] idatChunk
    (chunksBytes [iendChunk]) [([75], [86])] (by decide) (by decide)
    (by decide) (by decide) (by decide)

theorem utf8EncodeChar_ascii (c : Nat) (h : c < 128) :
    utf8EncodeChar c = [c] := by
  rw [utf8EncodeChar, if_pos (by omega)]

theorem utf8Encode_ascii (s : List Nat) (h : ∀ c ∈ s, c < 128) :
    utf8Encode s = s := by
  induction s with
  | nil => rfl
  | cons c t ih =>
    rw [utf8Encode, List.flatMap_cons,
      utf8EncodeChar_ascii c (h c (by simp))]
    have := ih (fun x hx => h x (by simp [hx]))
    rw [utf8Encode] at this
    rw [this]
    rfl

theorem win1252Byte_ascii (b : Nat) (h : b < 128) : win1252Byte b = b := by
  rw [win1252Byte]
  repeat rw [if_neg (by omega)]

theorem win1252Decode_ascii (s : List Nat) (h : ∀ c ∈ s, c < 128) :
    win1252Decode s = s := by
  rw [win1252Decode]
  induction s with
  | nil => rfl
  | cons c t ih =>
    rw [List.map_cons, win1252Byte_ascii c (h c (by simp)),
      ih (fun x hx => h x (by simp [hx]))]

theorem takeWhile_append_stop (k v : List Nat)
    (hk : ∀ c ∈ k, c ≠ 0) :
    (k ++ 0 :: v).takeWhile (fun b => b ≠ 0) = k := by
  induction k with
  | nil => simp [List.takeWhile_cons]
  | cons a t ih =>
    rw [List.cons_append, List.takeWhile_cons]
    have ha : a ≠ 0 := hk a (by simp)
    rw [if_pos (by simpa using ha), ih (fun x hx => hk x (by simp [hx]))]

theorem map_mod65536_ascii (k : List Nat) (hk : ∀ c ∈ k, c < 128) :
    k.map (fun b => b % 65536) = k := by
  induction k with
  | nil => rfl
  | cons a t ih =>
    rw [List.map_cons, Nat.mod_eq_of_lt (by have := hk a (by simp); omega),
      ih (fun c hc => hk c (by simp [hc]))]

theorem parseTEXt_ascii (k v : List Nat) (hk : ∀ c ∈ k, 0 < c ∧ c < 128)
    (hv : ∀ c ∈ v, c < 128) :
    parseTEXt (k ++ [0] ++ v) = (k, v) := by
  rw [parseTEXt]
  have hsplit : k ++ [0] ++ v = k ++ 0 :: v := by simp
  rw [hsplit, takeWhile_append_stop k v (fun c hc => by
    have := (hk c hc).1
    omega)]
  have hdrop : (k ++ 0 :: v).drop (k.length + 1) = v := by
    rw [show k ++ 0 :: v = (k ++ [0]) ++ v from by simp,
      List.drop_left' (by simp)]
  rw [hdrop, win1252Decode_ascii v hv,
    map_mod65536_ascii k (fun c hc => (hk c hc).2)]

theorem objInsert_fresh (m : Metadata) (k v : List Nat)
    (hfresh : ∀ p ∈ m, p.1 ≠ k) (hproto : k ≠ protoKey) :
    objInsert m k v = m ++ [(k, v)] := by
  rw [objInsert, if_neg hproto, if_neg]
  rw [List.any_eq_true]
  push_neg
  intro p hp
  exact fun h => hfresh p hp (by simpa using h)

theorem foldl_objInsert_fresh (entries : Metadata) :
    ∀ md : Metadata,
      (∀ e ∈ entries, e.1 ≠ protoKey) →
      (∀ e ∈ entries, ∀ p ∈ md, p.1 ≠ e.1) →
      ((entries.map Prod.fst).Nodup) →
      entries.foldl (fun m e => objInsert m e.1 e.2) md = md ++ entries := by
  induction entries with
  | nil =>
    intro md _ _ _
    simp
  | cons e es ih =>
    intro md hproto hfresh hnodup
    rw [List.foldl_cons,
      objInsert_fresh md e.1 e.2 (fun p hp => hfresh e (by simp) p hp)
        (hproto e (by simp))]
    have hnd : (es.map Prod.fst).Nodup := by
      rw [List.map_cons, List.nodup_cons] at hnodup
      exact hnodup.2
    have hkey : e.1 ∉ es.map Prod.fst := by
      rw [List.map_cons, List.nodup_cons] at hnodup
      exact hnodup.1
    have := ih (md ++ [(e.1, e.2)])
      (fun e' he' => hproto e' (by simp [he']))
      (fun e' he' p hp => by
        rcases List.mem_append.mp hp with hmd | hsing
        · exact hfresh e' (by simp [he']) p hmd
        · have hpe : p = (e.1, e.2) := by simpa using hsing
          rw [hpe]
          intro hcontra
          exact hkey (by
            rw [hcontra]
            exact List.mem_map.mpr ⟨e', he', rfl⟩))
      hnd
    rw [this]
    simp

theorem createTextChunk_eq_ser (k v : List Nat)
    (hk : ∀ c ∈ k, c < 128) (hv : ∀ c ∈ v, c < 128) :
    createTextChunk k v =
      serializeChunk ⟨tEXtType, k ++ [0] ++ v,
        u32be (calculateCRC (tEXtType ++ (k ++ [0] ++ v)))⟩ := by
  rw [createTextChunk, serializeChunk, utf8Encode_ascii k hk,
    utf8Encode_ascii v hv]

theorem textChunk_wf (k v : List Nat) (hk : ∀ c ∈ k, 0 < c ∧ c < 128)
    (hv : ∀ c ∈ v, c < 128) (hlen : k.length + v.length + 1 < 2147483648) :
    WFChunk ⟨tEXtType, k ++ [0] ++ v,
      u32be (calculateCRC (tEXtType ++ (k ++ [0] ++ v)))⟩ := by
  refine ⟨rfl, rfl, ?_, ?_, ?_, ?_⟩
  · simp only [List.length_append, List.length_singleton]
    omega
  · exact (by decide : ∀ b ∈ tEXtType, b < 256)
  · intro b hb
    rcases List.mem_append.mp hb with hb' | hbv
    · rcases List.mem_append.mp hb' with hbk | hbz
      · have := (hk b hbk).2
        omega
      · have : b = 0 := by simpa using hbz
        omega
    · have := hv b hbv
      omega
  · intro b hb
    rw [u32be] at hb
    have : b = calculateCRC (tEXtType ++ (k ++ [0] ++ v)) % 4294967296 /
          16777216 % 256 ∨
        b = calculateCRC (tEXtType ++ (k ++ [0] ++ v)) % 4294967296 /
          65536 % 256 ∨
        b = calculateCRC (tEXtType ++ (k ++ [0] ++ v)) % 4294967296 /
          256 % 256 ∨
        b = calculateCRC (tEXtType ++ (k ++ [0] ++ v)) % 4294967296 % 256 := by
      simpa using hb
    rcases this with h | h | h | h <;> omega

theorem walkEval_text_chunks (entries : Metadata)
    (hascii : ∀ e ∈ entries, (∀ c ∈ e.1, 0 < c ∧ c < 128) ∧
      (∀ c ∈ e.2, c < 128) ∧ e.1.length + e.2.length + 1 < 2147483648) :
    ∀ (front rest : List Nat) (md r : Metadata),
      WalkEval (front ++ textChunksBytes entries ++ rest)
        (((front ++ textChunksBytes entries).length : Int))
        (entries.foldl (fun m e => objInsert m e.1 e.2) md) r →
      WalkEval (front ++ textChunksBytes entries ++ rest)
        (front.length : Int) md r := by
  induction entries with
  | nil =>
    intro front rest md r h
    simpa [textChunksBytes] using h
  | cons e es ih =>
    intro front rest md r h
    obtain ⟨hek, hev, hel⟩ := hascii e (by simp)
    have hes : ∀ e' ∈ es, (∀ c ∈ e'.1, 0 < c ∧ c < 128) ∧
        (∀ c ∈ e'.2, c < 128) ∧ e'.1.length + e'.2.length + 1 < 2147483648 :=
      fun e' he' => hascii e' (by simp [he'])
    have hcons : textChunksBytes (e :: es) =
        createTextChunk e.1 e.2 ++ textChunksBytes es := by
      simp [textChunksBytes]
    have hser := createTextChunk_eq_ser e.1 e.2 (fun c hc => (hek c hc).2) hev
    have hwf : WFChunk ⟨tEXtType, e.1 ++ [0] ++ e.2,
        u32be (calculateCRC (tEXtType ++ (e.1 ++ [0] ++ e.2)))⟩ :=
      textChunk_wf e.1 e.2 hek hev hel
    rw [List.foldl_cons] at h
    rw [show front ++ textChunksBytes (e :: es) =
      (front ++ serializeChunk ⟨tEXtType, e.1 ++ [0] ++ e.2,
        u32be (calculateCRC (tEXtType ++ (e.1 ++ [0] ++ e.2)))⟩) ++
        textChunksBytes es from by rw [hcons, hser]; simp] at h
    have h' := ih hes
      (front ++ serializeChunk ⟨tEXtType, e.1 ++ [0] ++ e.2,
        u32be (calculateCRC (tEXtType ++ (e.1 ++ [0] ++ e.2)))⟩)
      rest (objInsert md e.1 e.2) r h
    rw [show (front ++ serializeChunk ⟨tEXtType, e.1 ++ [0] ++ e.2,
        u32be (calculateCRC (tEXtType ++ (e.1 ++ [0] ++ e.2)))⟩) ++
        textChunksBytes es ++ rest =
      front ++ serializeChunk ⟨tEXtType, e.1 ++ [0] ++ e.2,
        u32be (calculateCRC (tEXtType ++ (e.1 ++ [0] ++ e.2)))⟩ ++
        (textChunksBytes es ++ rest) from by simp] at h'
    have hpt : parseTEXt (e.1 ++ [0] ++ e.2) = (e.1, e.2) :=
      parseTEXt_ascii e.1 e.2 hek hev
    have h'' := walkEval_cons_tEXt front
      ⟨tEXtType, e.1 ++ [0] ++ e.2,
        u32be (calculateCRC (tEXtType ++ (e.1 ++ [0] ++ e.2)))⟩
      (textChunksBytes es ++ rest) md r hwf rfl (by rw [hpt]; exact h')
    rw [show front ++ serializeChunk ⟨tEXtType, e.1 ++ [0] ++ e.2,
        u32be (calculateCRC (tEXtType ++ (e.1 ++ [0] ++ e.2)))⟩ ++
        (textChunksBytes es ++ rest) =
      front ++ textChunksBytes (e :: es) ++ rest from by
        rw [hcons, hser]; simp] at h''
    exact h''

/-- C1 amended: the PNG text codec round-trips on well-formed PNG chunk
streams and ASCII entries.  For a buffer `signature ‖ pre-chunks ‖ IDAT
chunk ‖ post-chunks` whose chunks are well formed, with no text chunk and
no premature IEND or IDAT before the insertion point, and for a non-empty
entry list with pairwise distinct keys, no `__proto__` key, keywords of
non-NUL ASCII and texts of ASCII (the source encodes with UTF-8 but decodes
`tEXt` with windows-1252, so only ASCII survives unchanged), injecting the
entries and then extracting returns exactly the entries. -/
theorem C1_roundtrip_ascii (pre post : List PngChunk) (idatC : PngChunk)
    (entries : Metadata)
    (hpre : ∀ c ∈ pre, WFChunk c ∧ c.typ ≠ tEXtType ∧ c.typ ≠ iTXtType ∧
      c.typ ≠ iendType ∧ c.typ ≠ idatType)
    (hic : WFChunk idatC) (hit : idatC.typ = idatType)
    (hpost : ∀ c ∈ post, WFChunk c ∧ c.typ ≠ tEXtType ∧ c.typ ≠ iTXtType)
    (hne : entries ≠ [])
    (hnodup : (entries.map Prod.fst).Nodup)
    (hproto : ∀ e ∈ entries, e.1 ≠ protoKey)
    (hascii : ∀ e ∈ entries, (∀ c ∈ e.1, 0 < c ∧ c < 128) ∧
      (∀ c ∈ e.2, c < 128) ∧ e.1.length + e.2.length + 1 < 2147483648) :
    ∃ fuel out,
      injectPngMetadata
          ((specPngSignature ++ chunksBytes pre) ++
            (serializeChunk idatC ++ chunksBytes post)) (some entries) fuel =
        some out ∧
      ∃ fuel2, extractPngMetadata out fuel2 = some ("png", some entries) := by
  have hpre' : ∀ c ∈ pre, WFChunk c ∧ c.typ ≠ idatType :=
    fun c hc => ⟨(hpre c hc).1, (hpre c hc).2.2.2.2⟩
  obtain ⟨fuelI, hbody⟩ := injectBody_structure specPngSignature pre idatC
    (chunksBytes post) entries (by decide) hpre' hic hit
  have hni : entries.isEmpty = false := by
    cases entries with
    | nil => exact absurd rfl hne
    | cons a t => rfl
  refine ⟨fuelI, (specPngSignature ++ chunksBytes pre) ++
    textChunksBytes entries ++ (serializeChunk idatC ++ chunksBytes post),
    ?_, ?_⟩
  · simp only [injectPngMetadata, hni, if_neg Bool.false_ne_true, hbody]
  · -- the walk over the injected buffer collects exactly the entries
    have hfold : entries.foldl (fun m e => objInsert m e.1 e.2) [] =
        entries := by
      have := foldl_objInsert_fresh entries [] hproto
        (fun e he p hp => absurd hp (List.not_mem_nil p)) hnodup
      simpa using this
    have T4 : WalkEval
        (((specPngSignature ++ chunksBytes pre) ++ textChunksBytes entries ++
          serializeChunk idatC) ++ chunksBytes post)
        ((((specPngSignature ++ chunksBytes pre) ++ textChunksBytes entries ++
          serializeChunk idatC).length : Int)) entries entries :=
      walkEval_finish_chunks post
        (fun c hc => ⟨(hpost c hc).1, (hpost c hc).2.1, (hpost c hc).2.2⟩)
        _ entries
    have T4' : WalkEval
        (((specPngSignature ++ chunksBytes pre) ++ textChunksBytes entries) ++
          serializeChunk idatC ++ chunksBytes post)
        (((((specPngSignature ++ chunksBytes pre) ++ textChunksBytes entries) ++
          serializeChunk idatC).length : Int)) entries entries := by
      rw [show ((specPngSignature ++ chunksBytes pre) ++
          textChunksBytes entries) ++ serializeChunk idatC ++
          chunksBytes post =
        (((specPngSignature ++ chunksBytes pre) ++ textChunksBytes entries ++
          serializeChunk idatC)) ++ chunksBytes post from by simp]
      exact T4
    have T3 := walkEval_cons_skip
      ((specPngSignature ++ chunksBytes pre) ++ textChunksBytes entries)
      idatC (chunksBytes post) entries entries hic
      (by rw [hit]; decide) (by rw [hit]; decide) (by rw [hit]; decide) T4'
    have T3' : WalkEval
        ((specPngSignature ++ chunksBytes pre) ++ textChunksBytes entries ++
          (serializeChunk idatC ++ chunksBytes post))
        ((((specPngSignature ++ chunksBytes pre) ++
          textChunksBytes entries).length : Int)) entries entries := by
      rw [show (specPngSignature ++ chunksBytes pre) ++
          textChunksBytes entries ++
          (serializeChunk idatC ++ chunksBytes post) =
        ((specPngSignature ++ chunksBytes pre) ++ textChunksBytes entries) ++
          serializeChunk idatC ++ chunksBytes post from by simp]
      exact T3
    have T2 := walkEval_text_chunks entries hascii
      (specPngSignature ++ chunksBytes pre)
      (serializeChunk idatC ++ chunksBytes post) [] entries
      (by rw [hfold]; exact T3')
    have T1 := walkEval_skip_chunks pre
      (fun c hc => ⟨(hpre c hc).1, (hpre c hc).2.1, (hpre c hc).2.2.1,
        (hpre c hc).2.2.2.1⟩)
      specPngSignature
      (textChunksBytes entries ++ (serializeChunk idatC ++ chunksBytes post))
      [] entries
      (by
        rw [show specPngSignature ++ chunksBytes pre ++
            (textChunksBytes entries ++
              (serializeChunk idatC ++ chunksBytes post)) =
          (specPngSignature ++ chunksBytes pre) ++ textChunksBytes entries ++
            (serializeChunk idatC ++ chunksBytes post) from by simp]
        exact T2)
    rw [show specPngSignature ++ chunksBytes pre ++
        (textChunksBytes entries ++
          (serializeChunk idatC ++ chunksBytes post)) =
      (specPngSignature ++ chunksBytes pre) ++ textChunksBytes entries ++
        (serializeChunk idatC ++ chunksBytes post) from by simp] at T1
    obtain ⟨fuelW, hwalk⟩ := T1
    rw [show ((specPngSignature.length : Nat) : Int) = 8 from rfl] at hwalk
    refine ⟨fuelW, ?_⟩
    have hsig : ∀ i : Int, 0 ≤ i → i < 8 →
        byteAt ((specPngSignature ++ chunksBytes pre) ++
          textChunksBytes entries ++
          (serializeChunk idatC ++ chunksBytes post)) i =
        byteAt specPngSignature i := by
      intro i h0 h8
      rw [show (specPngSignature ++ chunksBytes pre) ++
          textChunksBytes entries ++
          (serializeChunk idatC ++ chunksBytes post) =
        specPngSignature ++ (chunksBytes pre ++ (textChunksBytes entries ++
          (serializeChunk idatC ++ chunksBytes post))) from by simp]
      exact byteAt_append_left _ _ i h0 (by
        rw [show ((specPngSignature.length : Nat) : Int) = 8 from rfl]
        omega)
    rw [extractPngMetadata, if_pos ⟨by rw [hsig 0 (by omega) (by omega)]; decide,
      by rw [hsig 1 (by omega) (by omega)]; decide,
      by rw [hsig 2 (by omega) (by omega)]; decide,
      by rw [hsig 3 (by omega) (by omega)]; decide⟩, hwalk]
    dsimp only
    rw [hni]
    rfl

theorem C1_witness :
    ∃ fuel out,
      injectPngMetadata
          ((specPngSignature ++ chunksBytes [ihdrChunk]) ++
            (serializeChunk idatChunk ++ chunksBytes [iendChunk]))
          (some [([75], [86])]) fuel = some out ∧
      ∃ fuel2, extractPngMetadata out fuel2 =
        some ("png", some [([75], [86])]) :=
  C1_roundtrip_ascii [ihdrChunk] [iendChunk] idatChunk [([75], [86])]
    (by decide) (by decide) (by decide) (by decide) (by decide) (by decide)
    (by decide) (by decide)

set_option maxRecDepth 8000 in
/-- C1 counterexample: the round trip is not the identity for every
mapping.  Injecting `{A ↦ U+00E9}` UTF-8-encodes the text as `C3 A9`, but
extraction decodes `tEXt` bodies as windows-1252, returning `{A ↦ U+00C3
U+00A9}` (`Ã©`) — a different mapping. -/
theorem C1_counterexample :
    (injectPngMetadata roundtripPng (some accentEntries) 10).bind
        (fun out => extractPngMetadata out 10) =
      some ("png", some [([65], [195, 169])]) ∧
    some (("png" : String), some [([65], [195, 169])]) ≠
      some ("png", some accentEntries) := by
  constructor
  · decide
  · decide

theorem C10_witness :
    (∀ o : Int, 0 ≤ o → o < ((List.replicate 20 0).length : Int) →
        -12 < readLength (List.replicate 20 0) o) ∧
    ∃ fuel, (pngWalk fuel (List.replicate 20 0) 8 []).isSome :=
  have h : ∀ o : Int, 0 ≤ o → o < ((List.replicate 20 0).length : Int) →
      -12 < readLength (List.replicate 20 0) o := by
    intro o h0 hlt
    have h20 : o < 20 := by simpa using hlt
    interval_cases o <;> decide
  ⟨h, C10_walk_terminates (List.replicate 20 0) h⟩

theorem C5_witness :
    (setSrcResourceStep ⟨true, [98, 108, 111, 98, 58, 97]⟩
        [98, 108, 111, 98, 58, 99]).1.count [98, 108, 111, 98, 58, 97] = 1 ∧
    [98, 108, 111, 98, 58, 99] ∉
      (setSrcResourceStep ⟨true, [98, 108, 111, 98, 58, 97]⟩
        [98, 108, 111, 98, 58, 99]).1 ∧
    (setSrcResourceStep ⟨true, [98, 108, 111, 98, 58, 97]⟩
        [98, 108, 111, 98, 58, 99]).2 = [98, 108, 111, 98, 58, 99] :=
  C5_revokes_previous_url_once ⟨true, [98, 108, 111, 98, 58, 97]⟩
    [98, 108, 111, 98, 58, 97] [98, 108, 111, 98, 58, 99]
    rfl rfl (by decide) (by decide)

end Iead
